import Mathlib

/-!
# Mobile navigation toggle (`static/index.js`)

A shallow embedding of the script's view of the page and of the three click
handlers it registers, followed by theorems about them.

The document is a tree of elements.  An element is referred to by its position
in the tree, the list of child indices leading to it from the root element.
Class updates leave every position as it is; when an element is inserted, the
references the page holds (listener targets and the elements the handlers closed
over) are renamed to the new positions of the same elements.
-/

namespace NavToggle

/-! ## Document model -/

/-- An element of the page: its `id` attribute, its `classList` (a token list,
in order) and its child elements. -/
inductive Node where
  | mk (id : String) (classList : List String) (children : List Node)
  deriving Repr

/-- Reference to an element: child indices from the root element. -/
abbrev Ref := List Nat

namespace Node

/-- The `id` attribute. -/
def id : Node → String
  | .mk i _ _ => i

/-- The tokens of `classList`. -/
def classList : Node → List String
  | .mk _ cl _ => cl

/-- The child elements, in order. -/
def children : Node → List Node
  | .mk _ _ ch => ch

/-- The element at a position, if there is one. -/
def get? : Node → Ref → Option Node
  | n, [] => some n
  | n, k :: p =>
    match n.children[k]? with
    | none => none
    | some c => c.get? p

/-- Replace the class list of the element at a position by `f` of it; all
other elements, and the shape of the tree, are kept. -/
def updateClassList (f : List String → List String) : Node → Ref → Node
  | .mk i cl ch, [] => .mk i (f cl) ch
  | .mk i cl ch, k :: p =>
    match ch[k]? with
    | none => .mk i cl ch
    | some c => .mk i cl (ch.set k (updateClassList f c p))

mutual
/-- All elements of the tree rooted here, in tree order (the root first). -/
def refs : Node → List Ref
  | .mk _ _ ch => [] :: refsFrom 0 ch
/-- Tree-order listing of the elements of a list of siblings, the first of
which is child number `k`. -/
def refsFrom : Nat → List Node → List Ref
  | _, [] => []
  | k, c :: cs => (refs c).map (k :: ·) ++ refsFrom (k + 1) cs
end

/-- Proper descendants of the element at the root, in tree order. -/
def descendants (n : Node) : List Ref :=
  refsFrom 0 n.children

end Node

/-- The class list at a position, if the element exists. -/
def classListAt (doc : Node) (r : Ref) : Option (List String) :=
  (doc.get? r).map Node.classList

/-- The `classList.contains(token)` test on the element at `r`; an absent
element has no class. -/
def hasClass (doc : Node) (r : Ref) (token : String) : Bool :=
  match classListAt doc r with
  | none => false
  | some cl => decide (token ∈ cl)

/-- Host lookup `document.getElementById(key)`: the first element in tree
order whose id is `key`. -/
def getElementById (doc : Node) (key : String) : Option Ref :=
  doc.refs.find? (fun r => decide ((doc.get? r).map Node.id = some key))

/-- Host query `el.querySelectorAll('.' ++ cls)`: the proper descendants of
`el` having class `cls`, in tree order. -/
def querySelectorAll (doc : Node) (el : Ref) (cls : String) : List Ref :=
  match doc.get? el with
  | none => []
  | some n => (n.descendants.map (el ++ ·)).filter (fun r => hasClass doc r cls)

/-- Host predicate `a.contains(b)`: `b` is `a` or a descendant of `a`. -/
def contains (a b : Ref) : Bool :=
  decide (a <+: b)

/-- Host operation `classList.toggle(token)` on a token list. -/
def tokenToggle (token : String) (cl : List String) : List String :=
  if token ∈ cl then cl.filter (fun c => decide (c ≠ token)) else cl ++ [token]

/-- Host operation `classList.remove(token)` on a token list. -/
def tokenRemove (token : String) (cl : List String) : List String :=
  cl.filter (fun c => decide (c ≠ token))


/-! ## The controller -/

/-- Where a listener is registered: on the document or on an element. -/
inductive EventTarget where
  | document
  | element (r : Ref)
  deriving DecidableEq, Repr

/-- The three click handlers of the script, with the elements they close over. -/
inductive Handler where
  /-- Lines 7-9: the handler on `navToggle`. -/
  | toggleShow (mobileDropdown : Ref)
  /-- Lines 12-16: the handler on `document`. -/
  | closeOutside (navToggle mobileDropdown : Ref)
  /-- Lines 21-23: the handler on each dropdown link. -/
  | closeOnLink (mobileDropdown : Ref)
  deriving DecidableEq, Repr

/-- Run a handler for a click whose `event.target` is `target`. -/
def Handler.run : Handler → Ref → Node → Node
  | .toggleShow mobileDropdown, _, doc =>
    doc.updateClassList (tokenToggle "show") mobileDropdown
  | .closeOutside navToggle mobileDropdown, target, doc =>
    if !contains navToggle target && !contains mobileDropdown target then
      doc.updateClassList (tokenRemove "show") mobileDropdown
    else
      doc
  | .closeOnLink mobileDropdown, _, doc =>
    doc.updateClassList (tokenRemove "show") mobileDropdown

/-- A registered click listener. -/
abbrev Listener := EventTarget × Handler

/-- The page: the document and the click listeners in registration order. -/
structure Page where
  doc : Node
  listeners : List Listener
  deriving Repr

/-- Errors a script can raise. -/
inductive JSError where
  | typeError
  deriving DecidableEq, Repr

/-- Host operation `t.addEventListener('click', h)`. -/
def addEventListener (t : EventTarget) (h : Handler) (pg : Page) : Page :=
  { pg with listeners := pg.listeners ++ [(t, h)] }

/-- Lines 2-26: the `DOMContentLoaded` callback. -/
def onDOMContentLoaded (pg : Page) : Except JSError Page :=
  let navToggle := getElementById pg.doc "nav-toggle"
  let mobileDropdown := getElementById pg.doc "mobile-dropdown"
  match navToggle, mobileDropdown with
  | some navToggle, some mobileDropdown =>
    let pg := addEventListener (.element navToggle) (.toggleShow mobileDropdown) pg
    let pg := addEventListener .document (.closeOutside navToggle mobileDropdown) pg
    let dropdownLinks := querySelectorAll pg.doc mobileDropdown "dropdown-link"
    .ok (dropdownLinks.foldl
      (fun pg link => addEventListener (.element link) (.closeOnLink mobileDropdown) pg) pg)
  | _, _ => .ok pg

/-- The targets a click on `target` visits while bubbling: the element, its
ancestors up to the root element, then the document. -/
def eventPath (target : Ref) : List EventTarget :=
  target.inits.reverse.map EventTarget.element ++ [EventTarget.document]

/-- The handlers registered on `cur`, in registration order. -/
def listenersOn (ls : List Listener) (cur : EventTarget) : List Handler :=
  (ls.filter (fun l => decide (l.1 = cur))).map (fun l => l.2)

/-- Run, in registration order, the listeners registered on `cur`. -/
def invoke (ls : List Listener) (target : Ref) (cur : EventTarget) (doc : Node) : Node :=
  (listenersOn ls cur).foldl (fun d h => h.run target d) doc

/-- Dispatch a click on the element `target` to the registered listeners. -/
def dispatchClick (pg : Page) (target : Ref) : Page :=
  { pg with doc := (eventPath target).foldl (fun d cur => invoke pg.listeners target cur d) pg.doc }

/-- The panel's visible state: presence of the `show` marker. -/
def visible (doc : Node) (mobileDropdown : Ref) : Bool :=
  hasClass doc mobileDropdown "show"

/-! ## Elements added later

Inserting a child moves the later siblings, and everything below them, one place
along.  The listeners stay on the elements they were registered on, and the
handlers keep the elements they closed over, so after an insertion every
reference held by the page is renamed to the element's new position. -/

/-- Host operation `parent.insertBefore(child, parent.children[k])` on the element
at position `par`, which is `parent.appendChild(child)` when `k` is the number of
children: the document afterwards. -/
def insertChild (child : Node) (k : Nat) : Node → Ref → Node
  | .mk i cl ch, [] =>
    if k ≤ ch.length then .mk i cl (ch.take k ++ child :: ch.drop k) else .mk i cl ch
  | .mk i cl ch, j :: p =>
    match ch[j]? with
    | none => .mk i cl ch
    | some c => .mk i cl (ch.set j (insertChild child k c p))

/-- The position, after an insertion at index `k` under `par`, of the element
that was at `r`: children of `par` from index `k` on, and their descendants, move
one place; every other element keeps its position. -/
def relocate : Ref → Nat → Ref → Ref
  | [], k, j :: q => if k ≤ j then (j + 1) :: q else j :: q
  | [], _, [] => []
  | _ :: _, _, [] => []
  | i :: par, k, j :: q => if i = j then j :: relocate par k q else j :: q

/-- Rename the element an event target refers to. -/
def EventTarget.mapRefs (f : Ref → Ref) : EventTarget → EventTarget
  | .document => .document
  | .element r => .element (f r)

/-- Rename the elements a handler closed over. -/
def Handler.mapRefs (f : Ref → Ref) : Handler → Handler
  | .toggleShow mobileDropdown => .toggleShow (f mobileDropdown)
  | .closeOutside navToggle mobileDropdown => .closeOutside (f navToggle) (f mobileDropdown)
  | .closeOnLink mobileDropdown => .closeOnLink (f mobileDropdown)

/-- Rename the elements a listener refers to. -/
def Listener.mapRefs (f : Ref → Ref) (l : Listener) : Listener :=
  (l.1.mapRefs f, l.2.mapRefs f)

/-- What happens to the page after initialization: an element is inserted, or an
element is clicked. -/
inductive Step where
  | insert (parent : Ref) (index : Nat) (child : Node)
  | click (target : Ref)

/-- The position of an element after a step. -/
def Step.relocate : Step → Ref → Ref
  | .insert parent index _, r => NavToggle.relocate parent index r
  | .click _, r => r

/-- The page after a step. -/
def Page.step (pg : Page) : Step → Page
  | .insert parent index child =>
    { doc := insertChild child index pg.doc parent,
      listeners := pg.listeners.map (Listener.mapRefs (NavToggle.relocate parent index)) }
  | .click target => dispatchClick pg target

/-- The page after a sequence of steps. -/
def Page.run (pg : Page) (steps : List Step) : Page :=
  steps.foldl Page.step pg

/-- The position of an element after a sequence of steps. -/
def relocateAll (steps : List Step) (r : Ref) : Ref :=
  steps.foldl (fun r s => s.relocate r) r

/-! ## Sample documents -/

/-- A page with the toggle button, an open panel holding two links (the second
wrapping a span) and a main area. -/
def samplePage : Node :=
  .mk "" [] [
    .mk "nav-toggle" ["btn"] [],
    .mk "mobile-dropdown" ["menu", "show"] [
      .mk "" ["dropdown-link"] [],
      .mk "" ["dropdown-link", "active"] [.mk "" ["label"] []]],
    .mk "main" [] []]

/-- The same page with the panel closed. -/
def samplePageClosed : Node :=
  .mk "" [] [
    .mk "nav-toggle" ["btn"] [],
    .mk "mobile-dropdown" ["menu"] [
      .mk "" ["dropdown-link"] [],
      .mk "" ["dropdown-link", "active"] [.mk "" ["label"] []]],
    .mk "main" [] []]

/-- A page without a toggle button. -/
def pageWithoutToggle : Node :=
  .mk "" [] [.mk "mobile-dropdown" ["menu", "show"] [.mk "" ["dropdown-link"] []]]

/-- The listeners registered on `samplePage` and `samplePageClosed`. -/
def sampleListeners : List Listener :=
  [(.element [0], .toggleShow [1]), (.document, .closeOutside [0] [1]),
   (.element [1, 0], .closeOnLink [1]), (.element [1, 1], .closeOnLink [1])]

/-- A page whose toggle control wraps the open panel. -/
def toggleWrapsPanel : Node :=
  .mk "" [] [
    .mk "nav-toggle" [] [
      .mk "mobile-dropdown" ["show"] [.mk "" ["dropdown-link"] []]]]

/-- A page whose toggle control is itself a dropdown link inside the panel. -/
def toggleInsidePanel : Node :=
  .mk "" [] [
    .mk "mobile-dropdown" [] [.mk "nav-toggle" ["dropdown-link"] []]]

/-- A fresh dropdown link, as a script or template may add later. -/
def newLink : Node :=
  .mk "" ["dropdown-link"] []

/-! ## Class updates -/

theorem classListAt_updateClassList (f : List String → List String) (doc : Node) (r p : Ref) :
    classListAt (doc.updateClassList f r) p
      = if p = r then (classListAt doc p).map f else classListAt doc p := by
  induction r generalizing doc p with
  | nil =>
    obtain ⟨i, cl, ch⟩ := doc
    cases p with
    | nil => simp [classListAt, Node.updateClassList, Node.get?, Node.classList]
    | cons j q => simp [classListAt, Node.updateClassList, Node.get?, Node.children]
  | cons k r ih =>
    obtain ⟨i, cl, ch⟩ := doc
    cases hk : ch[k]? with
    | none =>
      have hnone : classListAt (Node.mk i cl ch) (k :: r) = none := by
        simp [classListAt, Node.get?, Node.children, hk]
      by_cases hp : p = k :: r
      · subst hp
        simp [Node.updateClassList, hk, hnone]
      · simp [Node.updateClassList, hk, hp]
    | some c =>
      have hlt : k < ch.length := by
        rcases List.getElem?_eq_some_iff.mp hk with ⟨h, _⟩
        exact h
      cases p with
      | nil => simp [classListAt, Node.updateClassList, hk, Node.get?, Node.classList]
      | cons j q =>
        by_cases hj : j = k
        · subst hj
          have := ih c q
          simp only [classListAt] at this
          simp [classListAt, Node.updateClassList, hk, Node.get?, Node.children,
            List.getElem?_set_self hlt, this]
        · have hjk : ¬ k = j := fun h => hj h.symm
          simp [classListAt, Node.updateClassList, hk, Node.get?, Node.children,
            List.getElem?_set_ne hjk, hj]

theorem set_eq_self_of_getElem? {α : Type} (l : List α) (k : Nat) (a : α)
    (h : l[k]? = some a) : l.set k a = l := by
  apply List.ext_getElem?
  intro j
  rw [List.getElem?_set]
  by_cases hj : k = j
  · subst hj
    rcases List.getElem?_eq_some_iff.mp h with ⟨hlt, _⟩
    simp [hlt, h]
  · simp [hj]

theorem updateClassList_eq_self (f : List String → List String) (doc : Node) (r : Ref)
    (hf : ∀ cl, classListAt doc r = some cl → f cl = cl) :
    doc.updateClassList f r = doc := by
  induction r generalizing doc with
  | nil =>
    obtain ⟨i, cl, ch⟩ := doc
    have := hf cl (by simp [classListAt, Node.get?, Node.classList])
    simp [Node.updateClassList, this]
  | cons k r ih =>
    obtain ⟨i, cl, ch⟩ := doc
    cases hk : ch[k]? with
    | none => simp [Node.updateClassList, hk]
    | some c =>
      have hc : c.updateClassList f r = c := by
        apply ih
        intro cl0 h0
        apply hf
        simpa [classListAt, Node.get?, Node.children, hk] using h0
      simp only [Node.updateClassList, hk, hc, set_eq_self_of_getElem? ch k c hk]

theorem hasClass_updateClassList_of_ne (f : List String → List String) (doc : Node)
    (r p : Ref) (c : String) (hp : p ≠ r) :
    hasClass (doc.updateClassList f r) p c = hasClass doc p c := by
  simp [hasClass, classListAt_updateClassList, hp]

theorem mem_tokenToggle_of_ne (token c : String) (cl : List String) (hc : c ≠ token) :
    c ∈ tokenToggle token cl ↔ c ∈ cl := by
  unfold tokenToggle
  split <;> simp [hc]

theorem mem_tokenRemove_of_ne (token c : String) (cl : List String) (hc : c ≠ token) :
    c ∈ tokenRemove token cl ↔ c ∈ cl := by
  simp [tokenRemove, hc]

theorem mem_tokenToggle_self (token : String) (cl : List String) :
    token ∈ tokenToggle token cl ↔ token ∉ cl := by
  unfold tokenToggle
  split <;> simp [*]

theorem not_mem_tokenRemove_self (token : String) (cl : List String) :
    token ∉ tokenRemove token cl := by
  simp [tokenRemove]

theorem tokenRemove_eq_self (token : String) (cl : List String) (h : token ∉ cl) :
    tokenRemove token cl = cl := by
  simp only [tokenRemove, List.filter_eq_self]
  intro a ha
  simp only [decide_eq_true_eq]
  rintro rfl
  exact h ha

/-! ## Visibility under the three updates -/

theorem visible_toggle (doc : Node) (md : Ref) (h : classListAt doc md ≠ none) :
    visible (doc.updateClassList (tokenToggle "show") md) md = !visible doc md := by
  cases hcl : classListAt doc md with
  | none => exact absurd hcl h
  | some cl =>
    simp only [visible, hasClass, classListAt_updateClassList, if_true, hcl, Option.map_some']
    by_cases hs : "show" ∈ cl <;> simp [mem_tokenToggle_self, hs]

theorem visible_remove (doc : Node) (md : Ref) :
    visible (doc.updateClassList (tokenRemove "show") md) md = false := by
  cases hcl : classListAt doc md with
  | none => simp [visible, hasClass, classListAt_updateClassList, hcl]
  | some cl =>
    simp [visible, hasClass, classListAt_updateClassList, hcl, not_mem_tokenRemove_self]

theorem visible_update_of_ne (f : List String → List String) (doc : Node) (r md : Ref)
    (h : md ≠ r) : visible (doc.updateClassList f r) md = visible doc md :=
  hasClass_updateClassList_of_ne f doc r md "show" h

theorem remove_eq_self_of_closed (doc : Node) (md : Ref) (h : visible doc md = false) :
    doc.updateClassList (tokenRemove "show") md = doc := by
  apply updateClassList_eq_self
  intro cl hcl
  apply tokenRemove_eq_self
  simpa [visible, hasClass, hcl] using h

/-! ## Lookup and registration -/

theorem getElementById_some (doc : Node) (key : String) (r : Ref)
    (h : getElementById doc key = some r) : classListAt doc r ≠ none := by
  have := List.find?_some h
  simp only [decide_eq_true_eq] at this
  cases hg : doc.get? r with
  | none => simp [hg] at this
  | some n => simp [classListAt, hg]

theorem foldl_addEventListener (md : Ref) (links : List Ref) (pg : Page) :
    links.foldl (fun pg link =>
        addEventListener (.element link) (.closeOnLink md) pg) pg
      = ⟨pg.doc, pg.listeners ++
          links.map (fun link => (EventTarget.element link, Handler.closeOnLink md))⟩ := by
  induction links generalizing pg with
  | nil => simp
  | cons l ls ih =>
    simp only [List.foldl_cons, ih]
    simp [addEventListener]

theorem onDOMContentLoaded_present (pg : Page) (nt md : Ref)
    (hnt : getElementById pg.doc "nav-toggle" = some nt)
    (hmd : getElementById pg.doc "mobile-dropdown" = some md) :
    onDOMContentLoaded pg = .ok ⟨pg.doc, pg.listeners ++
      (EventTarget.element nt, Handler.toggleShow md) ::
      (EventTarget.document, Handler.closeOutside nt md) ::
      (querySelectorAll pg.doc md "dropdown-link").map
        (fun link => (EventTarget.element link, Handler.closeOnLink md))⟩ := by
  simp only [onDOMContentLoaded, hnt, hmd, foldl_addEventListener]
  simp [addEventListener]

theorem onDOMContentLoaded_absent (pg : Page)
    (h : getElementById pg.doc "nav-toggle" = none ∨
      getElementById pg.doc "mobile-dropdown" = none) :
    onDOMContentLoaded pg = .ok pg := by
  unfold onDOMContentLoaded
  rcases h with h | h
  · simp [h]
  · cases hn : getElementById pg.doc "nav-toggle" <;> simp [h]

/-! ## Handlers and the closed state -/

theorem run_closeOutside_inside (nt md t : Ref) (d : Node)
    (h : contains nt t = true ∨ contains md t = true) :
    (Handler.closeOutside nt md).run t d = d := by
  rcases h with h | h <;> simp [Handler.run, h]

theorem run_closeOutside_outside (nt md t : Ref) (d : Node)
    (h1 : contains nt t = false) (h2 : contains md t = false) :
    (Handler.closeOutside nt md).run t d = d.updateClassList (tokenRemove "show") md := by
  simp [Handler.run, h1, h2]

theorem run_keeps_closed (h : Handler) (hh : ∀ m, h ≠ Handler.toggleShow m) (t : Ref)
    (d : Node) (md : Ref) (hc : visible d md = false) :
    visible (h.run t d) md = false := by
  cases h with
  | toggleShow m => exact absurd rfl (hh m)
  | closeOutside a b =>
    simp only [Handler.run]
    split
    · by_cases hb : md = b
      · subst hb; exact visible_remove d md
      · rw [visible_update_of_ne _ _ _ _ hb]; exact hc
    · exact hc
  | closeOnLink b =>
    simp only [Handler.run]
    by_cases hb : md = b
    · subst hb; exact visible_remove d md
    · rw [visible_update_of_ne _ _ _ _ hb]; exact hc

theorem mem_registered (doc : Node) (nt md : Ref) (pg : Page)
    (hnt : getElementById doc "nav-toggle" = some nt)
    (hmd : getElementById doc "mobile-dropdown" = some md)
    (hinit : onDOMContentLoaded ⟨doc, []⟩ = .ok pg) (l : Listener) :
    l ∈ pg.listeners ↔
      l = (EventTarget.element nt, Handler.toggleShow md) ∨
      l = (EventTarget.document, Handler.closeOutside nt md) ∨
      ∃ link ∈ querySelectorAll doc md "dropdown-link",
        l = (EventTarget.element link, Handler.closeOnLink md) := by
  rw [onDOMContentLoaded_present ⟨doc, []⟩ nt md hnt hmd] at hinit
  injection hinit with hpg
  subst hpg
  simp only [List.nil_append, List.mem_cons, List.mem_map]
  constructor
  · rintro (h | h | ⟨link, hl, rfl⟩)
    · exact Or.inl h
    · exact Or.inr (Or.inl h)
    · exact Or.inr (Or.inr ⟨link, hl, rfl⟩)
  · rintro (h | h | ⟨link, hl, rfl⟩)
    · exact Or.inl h
    · exact Or.inr (Or.inl h)
    · exact Or.inr (Or.inr ⟨link, hl, rfl⟩)

theorem doc_of_init (doc : Node) (ls : List Listener) (pg : Page)
    (hinit : onDOMContentLoaded ⟨doc, ls⟩ = .ok pg) : pg.doc = doc := by
  unfold onDOMContentLoaded at hinit
  simp only at hinit
  split at hinit
  · rw [foldl_addEventListener] at hinit
    injection hinit with hpg
    subst hpg
    rfl
  · injection hinit with hpg
    subst hpg
    rfl

theorem tokenRemove_tokenToggle (token : String) (cl : List String) :
    tokenRemove token (tokenToggle token cl) = tokenRemove token cl := by
  unfold tokenToggle tokenRemove
  split <;> simp [List.filter_filter]

theorem tokenRemove_tokenRemove (token : String) (cl : List String) :
    tokenRemove token (tokenRemove token cl) = tokenRemove token cl := by
  simp [tokenRemove, List.filter_filter]

theorem classListAt_toggle_ne_none (doc : Node) (md : Ref) (h : classListAt doc md ≠ none) :
    classListAt (doc.updateClassList (tokenToggle "show") md) md ≠ none := by
  rw [classListAt_updateClassList]
  cases hcl : classListAt doc md with
  | none => exact absurd hcl h
  | some cl => simp

/-! ## Dispatch -/

theorem mem_listenersOn (ls : List Listener) (cur : EventTarget) (h : Handler) :
    h ∈ listenersOn ls cur ↔ (cur, h) ∈ ls := by
  simp only [listenersOn, List.mem_map, List.mem_filter, decide_eq_true_eq]
  constructor
  · rintro ⟨⟨c, h0⟩, ⟨hm, hc⟩, hh⟩
    simp only at hc hh
    subst hc; subst hh
    exact hm
  · intro hm
    exact ⟨(cur, h), ⟨hm, rfl⟩, rfl⟩

theorem listenersOn_append (a b : List Listener) (cur : EventTarget) :
    listenersOn (a ++ b) cur = listenersOn a cur ++ listenersOn b cur := by
  simp [listenersOn]

theorem mem_eventPath (t : Ref) (cur : EventTarget) :
    cur ∈ eventPath t ↔ cur = .document ∨ ∃ p, cur = .element p ∧ p <+: t := by
  simp only [eventPath, List.mem_append, List.mem_map, List.mem_reverse, List.mem_inits,
    List.mem_singleton]
  constructor
  · rintro (⟨p, hp, rfl⟩ | h)
    · exact Or.inr ⟨p, rfl, hp⟩
    · exact Or.inl h
  · rintro (h | ⟨p, rfl, hp⟩)
    · exact Or.inr h
    · exact Or.inl ⟨p, hp, rfl⟩

theorem inits_eq_snoc_self (a : Ref) :
    ∃ X, a.inits = X ++ [a] ∧ ∀ p ∈ X, p <+: a ∧ p ≠ a := by
  induction a with
  | nil => exact ⟨[], by simp, by simp⟩
  | cons x a ih =>
    obtain ⟨X, hX, hp⟩ := ih
    refine ⟨[] :: X.map (fun q => x :: q), ?_, ?_⟩
    · rw [List.inits_cons, hX]; simp
    · intro p hmem
      rcases List.mem_cons.mp hmem with rfl | hmem
      · exact ⟨List.nil_prefix, by simp⟩
      · obtain ⟨q, hq, rfl⟩ := List.mem_map.mp hmem
        obtain ⟨h1, h2⟩ := hp q hq
        refine ⟨?_, ?_⟩
        · obtain ⟨s, hs⟩ := h1
          exact ⟨s, by simp [hs]⟩
        · intro h
          exact h2 (List.cons.inj h).2

theorem eventPath_split (link s : Ref) :
    ∃ P1 P2, eventPath (link ++ s) = P1 ++ EventTarget.element link :: P2 ∧
      ∀ cur ∈ P2, cur = .document ∨ ∃ p, cur = .element p ∧ p <+: link ∧ p ≠ link := by
  obtain ⟨X, hX, hp⟩ := inits_eq_snoc_self link
  refine ⟨((s.inits.tail.map fun l => link ++ l).reverse).map EventTarget.element,
    X.reverse.map EventTarget.element ++ [EventTarget.document], ?_, ?_⟩
  · simp [eventPath, List.inits_append, hX]
  · intro cur hcur
    rcases List.mem_append.mp hcur with h | h
    · obtain ⟨p, hpX, rfl⟩ := List.mem_map.mp h
      exact Or.inr ⟨p, rfl, hp p (List.mem_reverse.mp hpX)⟩
    · exact Or.inl (List.mem_singleton.mp h)

theorem foldl_run_keeps_closed (hs : List Handler) (t : Ref) (md : Ref)
    (hh : ∀ h ∈ hs, ∀ m, h ≠ Handler.toggleShow m) (d : Node)
    (hc : visible d md = false) :
    visible (hs.foldl (fun d h => h.run t d) d) md = false := by
  induction hs generalizing d with
  | nil => exact hc
  | cons h hs ih =>
    simp only [List.foldl_cons]
    apply ih (fun h0 hm => hh h0 (List.mem_cons_of_mem _ hm))
    exact run_keeps_closed h (hh h (List.mem_cons_self _ _)) t d md hc

theorem foldl_invoke_keeps_closed (ls : List Listener) (t : Ref) (md : Ref)
    (path : List EventTarget)
    (hh : ∀ cur ∈ path, ∀ h, (cur, h) ∈ ls → ∀ m, h ≠ Handler.toggleShow m) (d : Node)
    (hc : visible d md = false) :
    visible (path.foldl (fun d cur => invoke ls t cur d) d) md = false := by
  induction path generalizing d with
  | nil => exact hc
  | cons cur path ih =>
    simp only [List.foldl_cons]
    apply ih (fun c hm => hh c (List.mem_cons_of_mem _ hm))
    apply foldl_run_keeps_closed _ t md _ d hc
    intro h hm
    exact hh cur (List.mem_cons_self _ _) h ((mem_listenersOn ls cur h).mp hm)

theorem foldl_run_id (hs : List Handler) (t : Ref) (d : Node)
    (hh : ∀ h ∈ hs, h.run t d = d) :
    hs.foldl (fun d h => h.run t d) d = d := by
  induction hs with
  | nil => rfl
  | cons h hs ih =>
    simp only [List.foldl_cons]
    rw [hh h (List.mem_cons_self _ _)]
    exact ih (fun h0 hm => hh h0 (List.mem_cons_of_mem _ hm))

theorem foldl_invoke_id (ls : List Listener) (t : Ref) (path : List EventTarget) (d : Node)
    (hh : ∀ cur ∈ path, ∀ h, (cur, h) ∈ ls → h.run t d = d) :
    path.foldl (fun d cur => invoke ls t cur d) d = d := by
  induction path with
  | nil => rfl
  | cons cur path ih =>
    simp only [List.foldl_cons]
    have : invoke ls t cur d = d := by
      apply foldl_run_id
      intro h hm
      exact hh cur (List.mem_cons_self _ _) h ((mem_listenersOn ls cur h).mp hm)
    rw [this]
    exact ih (fun c hm => hh c (List.mem_cons_of_mem _ hm))

theorem invoke_closes (ls : List Listener) (t : Ref) (cur : EventTarget) (md : Ref)
    (A B : List Handler) (hsplit : listenersOn ls cur = A ++ Handler.closeOnLink md :: B)
    (hB : ∀ h ∈ B, ∀ m, h ≠ Handler.toggleShow m) (d : Node) :
    visible (invoke ls t cur d) md = false := by
  simp only [invoke, hsplit, List.foldl_append, List.foldl_cons]
  apply foldl_run_keeps_closed B t md hB
  exact visible_remove _ md

theorem contains_iff (a b : Ref) : contains a b = true ↔ a <+: b := by
  simp [contains]

theorem mem_querySelectorAll (doc : Node) (el : Ref) (cls : String) (r : Ref)
    (h : r ∈ querySelectorAll doc el cls) :
    el <+: r ∧ hasClass doc r cls = true := by
  unfold querySelectorAll at h
  split at h
  · simp at h
  · obtain ⟨hm, hc⟩ := List.mem_filter.mp h
    obtain ⟨s, _, rfl⟩ := List.mem_map.mp hm
    exact ⟨List.prefix_append _ _, hc⟩

theorem dispatchClick_inside_unbound (doc : Node) (nt md : Ref) (pg : Page)
    (hnt : getElementById doc "nav-toggle" = some nt)
    (hmd : getElementById doc "mobile-dropdown" = some md)
    (hinit : onDOMContentLoaded ⟨doc, []⟩ = .ok pg) (t : Ref) (d : Node)
    (ht : contains md t = true)
    (hfree : ∀ p, p <+: t → p ≠ nt ∧ p ∉ querySelectorAll doc md "dropdown-link") :
    (dispatchClick ⟨d, pg.listeners⟩ t).doc = d := by
  simp only [dispatchClick]
  apply foldl_invoke_id
  intro cur hcur h hmem
  rcases (mem_registered doc nt md pg hnt hmd hinit (cur, h)).mp hmem with hl | hl | ⟨link, hlink, hl⟩
  · obtain ⟨hc, _⟩ := Prod.mk.inj hl
    rcases (mem_eventPath t cur).mp hcur with hd | ⟨p, hp, hpre⟩
    · rw [hd] at hc; cases hc
    · rw [hp] at hc
      injection hc with hc
      exact absurd hc (hfree p hpre).1
  · obtain ⟨_, hh⟩ := Prod.mk.inj hl
    subst hh
    exact run_closeOutside_inside nt md t d (Or.inr ht)
  · obtain ⟨hc, _⟩ := Prod.mk.inj hl
    rcases (mem_eventPath t cur).mp hcur with hd | ⟨p, hp, hpre⟩
    · rw [hd] at hc; cases hc
    · rw [hp] at hc
      injection hc with hc
      subst hc
      exact absurd hlink (hfree p hpre).2

/-! ## Listener counts -/

theorem refsFrom_head (k : Nat) (cs : List Node) (r : Ref) (h : r ∈ Node.refsFrom k cs) :
    ∃ j p, r = j :: p ∧ k ≤ j := by
  induction cs generalizing k with
  | nil => simp [Node.refsFrom] at h
  | cons c cs ih =>
    rw [Node.refsFrom] at h
    rcases List.mem_append.mp h with h | h
    · obtain ⟨p, _, rfl⟩ := List.mem_map.mp h
      exact ⟨k, p, rfl, le_refl k⟩
    · obtain ⟨j, p, hr, hj⟩ := ih (k + 1) h
      exact ⟨j, p, hr, by omega⟩

mutual
theorem refs_nodup : ∀ n : Node, n.refs.Nodup
  | .mk _ _ ch => by
    rw [Node.refs]
    refine List.nodup_cons.mpr ⟨?_, refsFrom_nodup 0 ch⟩
    intro h
    obtain ⟨j, p, hr, _⟩ := refsFrom_head 0 ch [] h
    cases hr
theorem refsFrom_nodup : ∀ (k : Nat) (cs : List Node), (Node.refsFrom k cs).Nodup
  | _, [] => by simp [Node.refsFrom]
  | k, c :: cs => by
    rw [Node.refsFrom]
    refine List.Nodup.append ?_ (refsFrom_nodup (k + 1) cs) ?_
    · exact (refs_nodup c).map (fun a b hab => (List.cons.inj hab).2)
    · intro r h1 h2
      obtain ⟨p, _, rfl⟩ := List.mem_map.mp h1
      obtain ⟨j, q, hr, hj⟩ := refsFrom_head (k + 1) cs _ h2
      have := (List.cons.inj hr).1
      omega
end

theorem querySelectorAll_nodup (doc : Node) (el : Ref) (cls : String) :
    (querySelectorAll doc el cls).Nodup := by
  unfold querySelectorAll
  split
  · exact List.nodup_nil
  · apply List.Nodup.filter
    apply List.Nodup.map (fun a b hab => List.append_cancel_left hab)
    exact refsFrom_nodup 0 _

theorem length_listenersOn_links (md : Ref) (links : List Ref) (e : Ref)
    (hnd : links.Nodup) :
    (listenersOn (links.map fun l => (EventTarget.element l, Handler.closeOnLink md))
      (.element e)).length = if e ∈ links then 1 else 0 := by
  induction links with
  | nil => simp [listenersOn]
  | cons l ls ih =>
    obtain ⟨hl0, hls⟩ := List.nodup_cons.mp hnd
    have ih := ih hls
    simp only [listenersOn, List.map_cons, List.filter_cons] at ih ⊢
    by_cases hl : l = e
    · subst hl
      simp only [hl0, if_false] at ih
      simp [ih]
    · have hne : ¬ EventTarget.element l = EventTarget.element e := by
        intro h; injection h with h; exact hl h
      have hne2 : ¬ e = l := fun h => hl h.symm
      simp [hne, ih, hne2]

/-! ## Descendants -/

theorem get?_append (n : Node) (a s : Ref) :
    n.get? (a ++ s) = (n.get? a).bind (fun m => m.get? s) := by
  induction a generalizing n with
  | nil => simp [Node.get?]
  | cons k a ih =>
    simp only [List.cons_append, Node.get?]
    cases n.children[k]? with
    | none => rfl
    | some c => exact ih c

mutual
theorem mem_refs : ∀ (n : Node) (r : Ref), r ∈ n.refs ↔ (n.get? r).isSome = true
  | .mk i cl ch, [] => by simp [Node.refs, Node.get?]
  | .mk i cl ch, j :: p => by
    rw [Node.refs, List.mem_cons, mem_refsFrom 0 ch j p]
    simp only [Node.get?, Node.children, Nat.zero_le, Nat.sub_zero, true_and]
    constructor
    · rintro (h | ⟨c, hc, hp⟩)
      · cases h
      · simp [hc, hp]
    · intro h
      cases hc : ch[j]? with
      | none => simp [hc] at h
      | some c =>
        simp only [hc] at h
        exact Or.inr ⟨c, rfl, h⟩
theorem mem_refsFrom : ∀ (k : Nat) (cs : List Node) (j : Nat) (p : Ref),
    (j :: p) ∈ Node.refsFrom k cs ↔
      k ≤ j ∧ ∃ c, cs[j - k]? = some c ∧ (c.get? p).isSome = true
  | _, [], _, _ => by simp [Node.refsFrom]
  | k, c :: cs, j, p => by
    rw [Node.refsFrom, List.mem_append, mem_refsFrom (k + 1) cs j p]
    constructor
    · rintro (h | ⟨hle, c0, hc0, hp⟩)
      · obtain ⟨q, hq, hEq⟩ := List.mem_map.mp h
        obtain ⟨h1, h2⟩ := List.cons.inj hEq
        subst h1; subst h2
        exact ⟨le_refl _, c, by simp, (mem_refs c q).mp hq⟩
      · refine ⟨by omega, c0, ?_, hp⟩
        have : j - k = (j - (k + 1)) + 1 := by omega
        rw [this, List.getElem?_cons_succ]
        exact hc0
    · rintro ⟨hle, c0, hc0, hp⟩
      by_cases hjk : j = k
      · subst hjk
        simp only [Nat.sub_self, List.getElem?_cons_zero, Option.some.injEq] at hc0
        subst hc0
        exact Or.inl (List.mem_map.mpr ⟨p, (mem_refs c p).mpr hp, rfl⟩)
      · refine Or.inr ⟨by omega, c0, ?_, hp⟩
        have : j - k = (j - (k + 1)) + 1 := by omega
        rw [this, List.getElem?_cons_succ] at hc0
        exact hc0
end

theorem mem_descendants (n : Node) (s : Ref) :
    s ∈ n.descendants ↔ s ≠ [] ∧ (n.get? s).isSome = true := by
  obtain ⟨i, cl, ch⟩ := n
  cases s with
  | nil =>
    simp only [Node.descendants, Node.children, ne_eq, not_true_eq_false, false_and, iff_false]
    intro h
    obtain ⟨j, p, hr, _⟩ := refsFrom_head 0 ch [] h
    cases hr
  | cons j p =>
    have := mem_refs (Node.mk i cl ch) (j :: p)
    rw [Node.refs, List.mem_cons] at this
    simp only [Node.descendants, Node.children, ne_eq, reduceCtorEq, not_false_eq_true,
      true_and]
    rw [← this]
    constructor
    · exact Or.inr
    · rintro (h | h)
      · cases h
      · exact h

theorem mem_querySelectorAll_iff (doc : Node) (el : Ref) (cls : String) (r : Ref)
    (hel : classListAt doc el ≠ none) :
    r ∈ querySelectorAll doc el cls ↔
      el <+: r ∧ r ≠ el ∧ hasClass doc r cls = true := by
  unfold querySelectorAll
  cases hg : doc.get? el with
  | none => simp [classListAt, hg] at hel
  | some n =>
    simp only [List.mem_filter, List.mem_map, mem_descendants]
    constructor
    · rintro ⟨⟨s, ⟨hs, _⟩, rfl⟩, hc⟩
      refine ⟨List.prefix_append _ _, ?_, hc⟩
      intro h
      exact hs (List.append_right_eq_self.mp h)
    · rintro ⟨⟨s, rfl⟩, hne, hc⟩
      refine ⟨⟨s, ⟨?_, ?_⟩, rfl⟩, hc⟩
      · rintro rfl
        exact hne (List.append_nil el)
      · have hv : classListAt doc (el ++ s) ≠ none := by
          intro h
          simp [hasClass, h] at hc
        simp only [classListAt, get?_append, hg, Option.bind_some] at hv
        cases hs : n.get? s with
        | none => simp [hs] at hv
        | some m => rfl

theorem getElementById_id (doc : Node) (key : String) (r : Ref)
    (h : getElementById doc key = some r) : (doc.get? r).map Node.id = some key := by
  have := List.find?_some h
  simpa using this

theorem toggle_ne_panel (doc : Node) (nt md : Ref)
    (hnt : getElementById doc "nav-toggle" = some nt)
    (hmd : getElementById doc "mobile-dropdown" = some md) : nt ≠ md := by
  intro h
  subst h
  have h1 := getElementById_id doc _ _ hnt
  have h2 := getElementById_id doc _ _ hmd
  rw [h1] at h2
  exact absurd h2 (by decide)

/-! ## Insertions and the positions of elements -/

theorem relocate_ne_inserted (par : Ref) (k : Nat) (r s : Ref) :
    relocate par k r ≠ par ++ k :: s := by
  induction par generalizing r with
  | nil =>
    cases r with
    | nil => simp [relocate]
    | cons j q =>
      simp only [relocate, List.nil_append]
      split
      · intro h
        have := (List.cons.inj h).1
        omega
      · intro h
        have := (List.cons.inj h).1
        omega
  | cons i par ih =>
    cases r with
    | nil => simp [relocate]
    | cons j q =>
      simp only [relocate, List.cons_append]
      split
      · intro h
        exact ih q (List.cons.inj h).2
      · rename_i hne
        intro h
        exact hne (List.cons.inj h).1.symm

theorem relocate_injective (par : Ref) (k : Nat) (a b : Ref)
    (h : relocate par k a = relocate par k b) : a = b := by
  induction par generalizing a b with
  | nil =>
    cases a with
    | nil =>
      cases b with
      | nil => rfl
      | cons j q =>
        simp only [relocate] at h
        split at h <;> cases h
    | cons i p =>
      cases b with
      | nil =>
        simp only [relocate] at h
        split at h <;> cases h
      | cons j q =>
        simp only [relocate] at h
        split at h <;> split at h <;>
          (obtain ⟨h1, h2⟩ := List.cons.inj h
           subst h2
           have : i = j := by omega
           subst this
           rfl)
  | cons x par ih =>
    cases a with
    | nil =>
      cases b with
      | nil => rfl
      | cons j q =>
        simp only [relocate] at h
        split at h <;> cases h
    | cons i p =>
      cases b with
      | nil =>
        simp only [relocate] at h
        split at h <;> cases h
      | cons j q =>
        simp only [relocate] at h
        split at h <;> split at h
        · obtain ⟨h1, h2⟩ := List.cons.inj h
          rw [h1, ih p q h2]
        · rename_i hx hne
          obtain ⟨h1, h2⟩ := List.cons.inj h
          exact absurd (hx.trans h1) hne
        · rename_i hne hx
          obtain ⟨h1, h2⟩ := List.cons.inj h
          exact absurd (hx.trans h1.symm) hne
        · exact h

theorem relocateAll_cons (s : Step) (steps : List Step) (r : Ref) :
    relocateAll (s :: steps) r = relocateAll steps (s.relocate r) := rfl

theorem relocateAll_append (a b : List Step) (r : Ref) :
    relocateAll (a ++ b) r = relocateAll b (relocateAll a r) := by
  simp [relocateAll, List.foldl_append]

theorem relocateAll_injective (steps : List Step) (a b : Ref)
    (h : relocateAll steps a = relocateAll steps b) : a = b := by
  induction steps generalizing a b with
  | nil => exact h
  | cons s steps ih =>
    have := ih _ _ h
    cases s with
    | insert par k child => exact relocate_injective par k a b this
    | click t => exact this

theorem relocate_of_prefix (par : Ref) (k : Nat) (r : Ref) (h : r <+: par) :
    relocate par k r = r := by
  induction par generalizing r with
  | nil =>
    have := List.prefix_nil.mp h
    subst this
    rfl
  | cons i par ih =>
    cases r with
    | nil => rfl
    | cons j q =>
      obtain ⟨t, ht⟩ := h
      obtain ⟨h1, h2⟩ := List.cons.inj ht
      subst h1
      simp only [relocate, if_true]
      rw [ih q ⟨t, h2⟩]

theorem eventTarget_mapRefs_comp (f g : Ref → Ref) (t : EventTarget) :
    (t.mapRefs f).mapRefs g = t.mapRefs (fun r => g (f r)) := by
  cases t <;> rfl

theorem handler_mapRefs_comp (f g : Ref → Ref) (h : Handler) :
    (h.mapRefs f).mapRefs g = h.mapRefs (fun r => g (f r)) := by
  cases h <;> rfl

theorem listener_mapRefs_comp (f g : Ref → Ref) (l : Listener) :
    Listener.mapRefs g (Listener.mapRefs f l) = Listener.mapRefs (fun r => g (f r)) l := by
  simp [Listener.mapRefs, eventTarget_mapRefs_comp, handler_mapRefs_comp]

theorem listener_mapRefs_id (l : Listener) : Listener.mapRefs (fun r => r) l = l := by
  obtain ⟨t, h⟩ := l
  cases t <;> cases h <;> rfl

theorem listeners_step (pg : Page) (s : Step) :
    (pg.step s).listeners = pg.listeners.map (Listener.mapRefs s.relocate) := by
  cases s with
  | insert par k child => rfl
  | click t =>
    have : (Listener.mapRefs (Step.click t).relocate) = fun l => l := by
      funext l
      exact listener_mapRefs_id l
    simp [Page.step, dispatchClick, this]

theorem listeners_run (pg : Page) (steps : List Step) :
    (pg.run steps).listeners = pg.listeners.map (Listener.mapRefs (relocateAll steps)) := by
  induction steps generalizing pg with
  | nil =>
    have : (Listener.mapRefs (relocateAll [])) = fun l => l := by
      funext l
      exact listener_mapRefs_id l
    simp [Page.run, this]
  | cons s steps ih =>
    have h := ih (pg.step s)
    simp only [Page.run, List.foldl_cons] at h ⊢
    rw [h, listeners_step, List.map_map]
    congr 1
    funext l
    simp only [Function.comp, listener_mapRefs_comp]
    rfl

theorem getElem?_insert_lt {α : Type} (ch : List α) (child : α) (k j : Nat)
    (hk : k ≤ ch.length) (hj : j < k) :
    (ch.take k ++ child :: ch.drop k)[j]? = ch[j]? := by
  rw [List.getElem?_append_left (by simp; omega)]
  rw [List.getElem?_take_of_lt hj]

theorem getElem?_insert_self {α : Type} (ch : List α) (child : α) (k : Nat)
    (hk : k ≤ ch.length) :
    (ch.take k ++ child :: ch.drop k)[k]? = some child := by
  rw [List.getElem?_append_right (by simp)]
  simp [Nat.min_eq_left hk]

theorem getElem?_insert_ge {α : Type} (ch : List α) (child : α) (k j : Nat)
    (hk : k ≤ ch.length) (hj : k ≤ j) :
    (ch.take k ++ child :: ch.drop k)[j + 1]? = ch[j]? := by
  rw [List.getElem?_append_right (by simp; omega)]
  have : j + 1 - (List.take k ch).length = (j - k) + 1 := by
    simp [Nat.min_eq_left hk]; omega
  rw [this, List.getElem?_cons_succ, List.getElem?_drop]
  congr 1
  omega

theorem get?_insertChild_relocate (child : Node) (k : Nat) (d : Node) (par r : Ref) :
    ((insertChild child k d par).get? (relocate par k r)).map
        (fun n => (n.id, n.classList))
      = (d.get? r).map (fun n => (n.id, n.classList)) := by
  induction par generalizing d r with
  | nil =>
    obtain ⟨i, cl, ch⟩ := d
    cases r with
    | nil =>
      simp only [relocate, insertChild, Node.get?]
      split <;> rfl
    | cons j q =>
      by_cases hk : k ≤ ch.length
      · by_cases hj : k ≤ j
        · simp only [relocate, insertChild, hk, hj, if_true, Node.get?, Node.children,
            getElem?_insert_ge ch child k j hk hj]
        · simp only [relocate, insertChild, hk, hj, if_true, if_false, Node.get?,
            Node.children, getElem?_insert_lt ch child k j hk (by omega)]
      · by_cases hj : k ≤ j
        · have h1 : ch[j + 1]? = none := List.getElem?_eq_none (by omega)
          have h2 : ch[j]? = none := List.getElem?_eq_none (by omega)
          simp [relocate, insertChild, hk, hj, Node.get?, Node.children, h1, h2]
        · simp [relocate, insertChild, hk, hj]
  | cons x par ih =>
    obtain ⟨i, cl, ch⟩ := d
    cases r with
    | nil =>
      simp only [relocate, insertChild, Node.get?]
      split <;> rfl
    | cons j q =>
      cases hx : ch[x]? with
      | none =>
        by_cases hj : x = j
        · subst hj
          simp [relocate, insertChild, hx, Node.get?, Node.children]
        · simp [relocate, insertChild, hx, hj]
      | some c =>
        have hlt : x < ch.length := (List.getElem?_eq_some_iff.mp hx).1
        by_cases hj : x = j
        · subst hj
          simp only [relocate, insertChild, hx, if_true, Node.get?, Node.children,
            List.getElem?_set_self hlt]
          exact ih c q
        · simp only [relocate, insertChild, hx, hj, if_false, Node.get?, Node.children,
            List.getElem?_set_ne hj]

theorem get?_insertChild_inserted (child : Node) (k : Nat) (d : Node) (par s : Ref)
    (n : Node) (hpar : d.get? par = some n) (hk : k ≤ n.children.length) :
    (insertChild child k d par).get? (par ++ k :: s) = child.get? s := by
  induction par generalizing d with
  | nil =>
    obtain ⟨i, cl, ch⟩ := d
    simp only [Node.get?, Option.some.injEq] at hpar
    subst hpar
    simp only [Node.children] at hk
    simp only [insertChild, hk, if_true, List.nil_append, Node.get?, Node.children,
      getElem?_insert_self ch child k hk]
  | cons x par ih =>
    obtain ⟨i, cl, ch⟩ := d
    cases hx : ch[x]? with
    | none => simp [Node.get?, Node.children, hx] at hpar
    | some c =>
      have hlt : x < ch.length := (List.getElem?_eq_some_iff.mp hx).1
      simp only [Node.get?, Node.children, hx] at hpar
      simp only [insertChild, hx, List.cons_append, Node.get?, Node.children,
        List.getElem?_set_self hlt]
      exact ih c hpar

theorem mem_refs_of_classListAt (doc : Node) (r : Ref) (h : classListAt doc r ≠ none) :
    r ∈ doc.refs := by
  apply (mem_refs doc r).mpr
  cases hg : doc.get? r with
  | none => simp [classListAt, hg] at h
  | some n => rfl

theorem mem_registered_run (doc : Node) (nt md : Ref) (pg : Page)
    (hnt : getElementById doc "nav-toggle" = some nt)
    (hmd : getElementById doc "mobile-dropdown" = some md)
    (hinit : onDOMContentLoaded ⟨doc, []⟩ = .ok pg) (steps : List Step) (l : Listener) :
    l ∈ (pg.run steps).listeners ↔
      l = (EventTarget.element (relocateAll steps nt),
            Handler.toggleShow (relocateAll steps md)) ∨
      l = (EventTarget.document,
            Handler.closeOutside (relocateAll steps nt) (relocateAll steps md)) ∨
      ∃ link ∈ querySelectorAll doc md "dropdown-link",
        l = (EventTarget.element (relocateAll steps link),
              Handler.closeOnLink (relocateAll steps md)) := by
  rw [listeners_run, List.mem_map]
  constructor
  · rintro ⟨l0, hl0, rfl⟩
    rcases (mem_registered doc nt md pg hnt hmd hinit l0).mp hl0 with h | h | ⟨link, hlink, h⟩
    · subst h; exact Or.inl rfl
    · subst h; exact Or.inr (Or.inl rfl)
    · subst h; exact Or.inr (Or.inr ⟨link, hlink, rfl⟩)
  · rintro (h | h | ⟨link, hlink, h⟩)
    · exact ⟨_, (mem_registered doc nt md pg hnt hmd hinit _).mpr (Or.inl rfl), h.symm⟩
    · exact ⟨_, (mem_registered doc nt md pg hnt hmd hinit _).mpr (Or.inr (Or.inl rfl)),
        h.symm⟩
    · exact ⟨_, (mem_registered doc nt md pg hnt hmd hinit _).mpr
        (Or.inr (Or.inr ⟨link, hlink, rfl⟩)), h.symm⟩

/-! ## The claims -/

/-- C1: after initialization with both elements present, the handler registered
on the toggle control, run twice, leaves the panel's visible state as it was;
starting closed, the first run opens the panel and the second closes it. -/
theorem toggle_twice_restores (doc : Node) (nt md : Ref) (pg : Page) (t1 t2 : Ref)
    (hnt : getElementById doc "nav-toggle" = some nt)
    (hmd : getElementById doc "mobile-dropdown" = some md)
    (hinit : onDOMContentLoaded ⟨doc, []⟩ = .ok pg) :
    (EventTarget.element nt, Handler.toggleShow md) ∈ pg.listeners ∧
    visible ((Handler.toggleShow md).run t2 ((Handler.toggleShow md).run t1 pg.doc)) md
      = visible pg.doc md ∧
    (visible pg.doc md = false →
      visible ((Handler.toggleShow md).run t1 pg.doc) md = true ∧
      visible ((Handler.toggleShow md).run t2 ((Handler.toggleShow md).run t1 pg.doc)) md
        = false) := by
  have hdoc := doc_of_init doc [] pg hinit
  have hvalid : classListAt pg.doc md ≠ none := by
    rw [hdoc]; exact getElementById_some doc _ md hmd
  have hreg := (mem_registered doc nt md pg hnt hmd hinit _).mpr (Or.inl rfl)
  have h1 : visible ((Handler.toggleShow md).run t1 pg.doc) md = !visible pg.doc md :=
    visible_toggle pg.doc md hvalid
  have h2 : visible ((Handler.toggleShow md).run t2 ((Handler.toggleShow md).run t1 pg.doc)) md
      = visible pg.doc md := by
    have := visible_toggle _ md (classListAt_toggle_ne_none pg.doc md hvalid)
    simp only [Handler.run] at h1 ⊢
    rw [this, h1, Bool.not_not]
  refine ⟨hreg, h2, fun hc => ⟨?_, ?_⟩⟩
  · rw [h1, hc]; rfl
  · rw [h2, hc]

theorem toggle_twice_restores_witness :
    getElementById samplePageClosed "nav-toggle" = some [0] ∧
    getElementById samplePageClosed "mobile-dropdown" = some [1] ∧
    onDOMContentLoaded ⟨samplePageClosed, []⟩ = .ok ⟨samplePageClosed, sampleListeners⟩ ∧
    visible ((Handler.toggleShow [1]).run [0] samplePageClosed) [1] = true ∧
    visible ((Handler.toggleShow [1]).run [0]
      ((Handler.toggleShow [1]).run [0] samplePageClosed)) [1] = false :=
  ⟨by decide, by decide, rfl,
    ((toggle_twice_restores samplePageClosed [0] [1] ⟨samplePageClosed, sampleListeners⟩
      [0] [0] (by decide) (by decide) rfl).2.2 (by decide))⟩

/-- C2: starting closed, for a click whose origin lies within the toggle
control, the toggle handler followed by the document-wide handler leaves the
panel visible: the document-wide handler changes nothing. -/
theorem toggle_then_document_keeps_open (doc : Node) (nt md : Ref) (pg : Page) (t : Ref)
    (hnt : getElementById doc "nav-toggle" = some nt)
    (hmd : getElementById doc "mobile-dropdown" = some md)
    (hinit : onDOMContentLoaded ⟨doc, []⟩ = .ok pg)
    (ht : contains nt t = true)
    (hclosed : visible pg.doc md = false) :
    (EventTarget.element nt, Handler.toggleShow md) ∈ pg.listeners ∧
    (EventTarget.document, Handler.closeOutside nt md) ∈ pg.listeners ∧
    (Handler.closeOutside nt md).run t ((Handler.toggleShow md).run t pg.doc)
      = (Handler.toggleShow md).run t pg.doc ∧
    visible ((Handler.closeOutside nt md).run t ((Handler.toggleShow md).run t pg.doc)) md
      = true := by
  have hdoc := doc_of_init doc [] pg hinit
  have hvalid : classListAt pg.doc md ≠ none := by
    rw [hdoc]; exact getElementById_some doc _ md hmd
  have hreg1 := (mem_registered doc nt md pg hnt hmd hinit _).mpr (Or.inl rfl)
  have hreg2 := (mem_registered doc nt md pg hnt hmd hinit _).mpr (Or.inr (Or.inl rfl))
  have hno := run_closeOutside_inside nt md t ((Handler.toggleShow md).run t pg.doc)
    (Or.inl ht)
  refine ⟨hreg1, hreg2, hno, ?_⟩
  rw [hno]
  have h1 : visible ((Handler.toggleShow md).run t pg.doc) md = !visible pg.doc md :=
    visible_toggle pg.doc md hvalid
  rw [h1, hclosed]; rfl

theorem toggle_then_document_keeps_open_witness :
    getElementById samplePageClosed "nav-toggle" = some [0] ∧
    getElementById samplePageClosed "mobile-dropdown" = some [1] ∧
    onDOMContentLoaded ⟨samplePageClosed, []⟩ = .ok ⟨samplePageClosed, sampleListeners⟩ ∧
    contains [0] [0] = true ∧
    visible samplePageClosed [1] = false ∧
    visible ((Handler.closeOutside [0] [1]).run [0]
      ((Handler.toggleShow [1]).run [0] samplePageClosed)) [1] = true :=
  ⟨by decide, by decide, rfl, by decide, by decide,
    (toggle_then_document_keeps_open samplePageClosed [0] [1]
      ⟨samplePageClosed, sampleListeners⟩ [0] (by decide) (by decide) rfl
      (by decide) (by decide)).2.2.2⟩

/-- C3: for a click whose origin lies within neither the toggle control nor the
panel, the document-wide handler leaves the panel not visible whatever the state
before; on a closed panel it changes nothing, and running it twice equals running
it once. -/
theorem outside_click_dismisses (doc : Node) (nt md : Ref) (pg : Page) (t : Ref) (d : Node)
    (hnt : getElementById doc "nav-toggle" = some nt)
    (hmd : getElementById doc "mobile-dropdown" = some md)
    (hinit : onDOMContentLoaded ⟨doc, []⟩ = .ok pg)
    (h1 : contains nt t = false) (h2 : contains md t = false) :
    (EventTarget.document, Handler.closeOutside nt md) ∈ pg.listeners ∧
    visible ((Handler.closeOutside nt md).run t d) md = false ∧
    (visible d md = false → (Handler.closeOutside nt md).run t d = d) ∧
    (Handler.closeOutside nt md).run t ((Handler.closeOutside nt md).run t d)
      = (Handler.closeOutside nt md).run t d := by
  have hreg := (mem_registered doc nt md pg hnt hmd hinit _).mpr (Or.inr (Or.inl rfl))
  have hrun : ∀ d0, (Handler.closeOutside nt md).run t d0
      = d0.updateClassList (tokenRemove "show") md :=
    fun d0 => run_closeOutside_outside nt md t d0 h1 h2
  refine ⟨hreg, ?_, ?_, ?_⟩
  · rw [hrun]; exact visible_remove d md
  · intro hc; rw [hrun]; exact remove_eq_self_of_closed d md hc
  · rw [hrun, hrun]
    exact remove_eq_self_of_closed _ md (visible_remove d md)

theorem outside_click_dismisses_witness :
    getElementById samplePage "nav-toggle" = some [0] ∧
    getElementById samplePage "mobile-dropdown" = some [1] ∧
    onDOMContentLoaded ⟨samplePage, []⟩ = .ok ⟨samplePage, sampleListeners⟩ ∧
    contains [0] [2] = false ∧ contains [1] [2] = false ∧
    visible samplePage [1] = true ∧
    visible ((Handler.closeOutside [0] [1]).run [2] samplePage) [1] = false :=
  ⟨by decide, by decide, rfl, by decide, by decide, by decide,
    (outside_click_dismisses samplePage [0] [1] ⟨samplePage, sampleListeners⟩ [2] samplePage
      (by decide) (by decide) rfl (by decide) (by decide)).2.1⟩

/-- C6: when the lookup of the toggle control or of the panel finds no element,
initialization returns normally with the page as it was: no listener is added on
any target, the document is unchanged and no error is raised. -/
theorem init_skips_when_absent (pg : Page)
    (h : getElementById pg.doc "nav-toggle" = none ∨
      getElementById pg.doc "mobile-dropdown" = none) :
    onDOMContentLoaded pg = .ok pg ∧
    ∀ pg1, onDOMContentLoaded pg = .ok pg1 →
      pg1.doc = pg.doc ∧ ∀ cur, listenersOn pg1.listeners cur = listenersOn pg.listeners cur := by
  have hok := onDOMContentLoaded_absent pg h
  refine ⟨hok, ?_⟩
  intro pg1 h1
  rw [hok] at h1
  injection h1 with h1
  subst h1
  exact ⟨rfl, fun _ => rfl⟩

theorem init_skips_when_absent_witness :
    getElementById pageWithoutToggle "nav-toggle" = none ∧
    onDOMContentLoaded ⟨pageWithoutToggle, []⟩ = .ok ⟨pageWithoutToggle, []⟩ :=
  ⟨by decide, (init_skips_when_absent ⟨pageWithoutToggle, []⟩ (Or.inl (by decide))).1⟩

/-- C7: from a closed panel, the document-wide handler (for any origin) and the
link handler leave the panel closed; any registered listener whose run takes the
panel from closed to visible is the toggle listener on the toggle control. -/
theorem only_toggle_opens (doc : Node) (nt md : Ref) (pg : Page)
    (hnt : getElementById doc "nav-toggle" = some nt)
    (hmd : getElementById doc "mobile-dropdown" = some md)
    (hinit : onDOMContentLoaded ⟨doc, []⟩ = .ok pg) :
    (∀ d t, visible d md = false →
      visible ((Handler.closeOutside nt md).run t d) md = false) ∧
    (∀ d t, visible d md = false →
      visible ((Handler.closeOnLink md).run t d) md = false) ∧
    (∀ l ∈ pg.listeners, ∀ d t, visible d md = false →
      visible (l.2.run t d) md = true →
      l = (EventTarget.element nt, Handler.toggleShow md)) := by
  refine ⟨?_, ?_, ?_⟩
  · intro d t hc
    exact run_keeps_closed _ (fun m => by simp) t d md hc
  · intro d t hc
    exact run_keeps_closed _ (fun m => by simp) t d md hc
  · intro l hl d t hc ho
    rcases (mem_registered doc nt md pg hnt hmd hinit l).mp hl with h | h | ⟨link, _, h⟩
    · exact h
    · subst h
      have := run_keeps_closed (Handler.closeOutside nt md) (fun m => by simp) t d md hc
      simp only at ho
      rw [this] at ho
      exact absurd ho (by simp)
    · subst h
      have := run_keeps_closed (Handler.closeOnLink md) (fun m => by simp) t d md hc
      simp only at ho
      rw [this] at ho
      exact absurd ho (by simp)

theorem only_toggle_opens_witness :
    getElementById samplePageClosed "nav-toggle" = some [0] ∧
    getElementById samplePageClosed "mobile-dropdown" = some [1] ∧
    onDOMContentLoaded ⟨samplePageClosed, []⟩ = .ok ⟨samplePageClosed, sampleListeners⟩ ∧
    visible ((Handler.closeOnLink [1]).run [1, 0] samplePageClosed) [1] = false :=
  ⟨by decide, by decide, rfl,
    (only_toggle_opens samplePageClosed [0] [1] ⟨samplePageClosed, sampleListeners⟩
      (by decide) (by decide) rfl).2.1 samplePageClosed [1, 0] (by decide)⟩

/-- C10: every listener registered by initialization, run for any click on any
document, leaves the class list of every element other than the panel as it was
(the toggle control and the links among them), and on the panel keeps every class
other than `show` (the other tokens and their order are unchanged). -/
theorem handlers_frame (doc : Node) (nt md : Ref) (pg : Page)
    (hnt : getElementById doc "nav-toggle" = some nt)
    (hmd : getElementById doc "mobile-dropdown" = some md)
    (hinit : onDOMContentLoaded ⟨doc, []⟩ = .ok pg) :
    ∀ l ∈ pg.listeners, ∀ (d : Node) (t : Ref),
      (∀ p, p ≠ md → classListAt (l.2.run t d) p = classListAt d p) ∧
      (∀ c, c ≠ "show" → hasClass (l.2.run t d) md c = hasClass d md c) ∧
      (classListAt (l.2.run t d) md).map (tokenRemove "show")
        = (classListAt d md).map (tokenRemove "show") ∧
      classListAt (l.2.run t d) nt = classListAt d nt ∧
      (∀ link ∈ querySelectorAll doc md "dropdown-link",
        classListAt (l.2.run t d) link = classListAt d link) := by
  intro l hl d t
  suffices hmain :
      (∀ p, p ≠ md → classListAt (l.2.run t d) p = classListAt d p) ∧
      (∀ c, c ≠ "show" → hasClass (l.2.run t d) md c = hasClass d md c) ∧
      (classListAt (l.2.run t d) md).map (tokenRemove "show")
        = (classListAt d md).map (tokenRemove "show") by
    refine ⟨hmain.1, hmain.2.1, hmain.2.2, ?_, ?_⟩
    · exact hmain.1 nt (toggle_ne_panel doc nt md hnt hmd)
    · intro link hlink
      exact hmain.1 link
        ((mem_querySelectorAll_iff doc md _ link
          (getElementById_some doc _ md hmd)).mp hlink).2.1
  have key : ∀ f : List String → List String,
      (∀ cl c, c ≠ "show" → (c ∈ f cl ↔ c ∈ cl)) →
      (∀ cl, tokenRemove "show" (f cl) = tokenRemove "show" cl) →
      (∀ p, p ≠ md → classListAt (d.updateClassList f md) p = classListAt d p) ∧
      (∀ c, c ≠ "show" → hasClass (d.updateClassList f md) md c = hasClass d md c) ∧
      (classListAt (d.updateClassList f md) md).map (tokenRemove "show")
        = (classListAt d md).map (tokenRemove "show") := by
    intro f hf1 hf2
    refine ⟨?_, ?_, ?_⟩
    · intro p hp
      simp [classListAt_updateClassList, hp]
    · intro c hc
      cases hcl : classListAt d md with
      | none => simp [hasClass, classListAt_updateClassList, hcl]
      | some cl => simp [hasClass, classListAt_updateClassList, hcl, hf1 cl c hc]
    · cases hcl : classListAt d md with
      | none => simp [classListAt_updateClassList, hcl]
      | some cl => simp [classListAt_updateClassList, hcl, hf2]
  have keyToggle := key (tokenToggle "show")
    (fun cl c hc => mem_tokenToggle_of_ne "show" c cl hc) (tokenRemove_tokenToggle "show")
  have keyRemove := key (tokenRemove "show")
    (fun cl c hc => mem_tokenRemove_of_ne "show" c cl hc) (tokenRemove_tokenRemove "show")
  rcases (mem_registered doc nt md pg hnt hmd hinit l).mp hl with h | h | ⟨link, _, h⟩
  · subst h; exact keyToggle
  · subst h
    simp only [Handler.run]
    split
    · exact keyRemove
    · exact ⟨fun _ _ => rfl, fun _ _ => rfl, rfl⟩
  · subst h; exact keyRemove

theorem handlers_frame_witness :
    getElementById samplePage "nav-toggle" = some [0] ∧
    getElementById samplePage "mobile-dropdown" = some [1] ∧
    onDOMContentLoaded ⟨samplePage, []⟩ = .ok ⟨samplePage, sampleListeners⟩ ∧
    hasClass ((Handler.toggleShow [1]).run [0] samplePage) [1] "menu"
      = hasClass samplePage [1] "menu" :=
  ⟨by decide, by decide, rfl,
    ((handlers_frame samplePage [0] [1] ⟨samplePage, sampleListeners⟩
      (by decide) (by decide) rfl) (.element [0], .toggleShow [1]) (by decide)
      samplePage [0]).2.1 "menu" (by decide)⟩

/-- C4, as stated, fails: on the sample page with the panel open, a click whose
origin is the first dropdown link (a descendant of the panel) ends with the panel
not visible. -/
theorem inside_click_on_link_closes :
    getElementById samplePage "nav-toggle" = some [0] ∧
    getElementById samplePage "mobile-dropdown" = some [1] ∧
    onDOMContentLoaded ⟨samplePage, []⟩ = .ok ⟨samplePage, sampleListeners⟩ ∧
    contains [1] [1, 0] = true ∧
    visible samplePage [1] = true ∧
    visible (dispatchClick ⟨samplePage, sampleListeners⟩ [1, 0]).doc [1] = false :=
  ⟨by decide, by decide, rfl, by decide, by decide, by decide⟩

/-- C4, amended: with the panel visible and the origin within the panel, the
document-wide handler changes nothing, so the panel stays visible under it; and
when no element from the origin up to the root is the toggle control or a link
bound at initialization, the panel is still visible after the whole dispatch. -/
theorem inside_click_keeps_open (doc : Node) (nt md : Ref) (pg : Page) (t : Ref) (d : Node)
    (hnt : getElementById doc "nav-toggle" = some nt)
    (hmd : getElementById doc "mobile-dropdown" = some md)
    (hinit : onDOMContentLoaded ⟨doc, []⟩ = .ok pg)
    (ht : contains md t = true)
    (hvis : visible d md = true) :
    (Handler.closeOutside nt md).run t d = d ∧
    visible ((Handler.closeOutside nt md).run t d) md = true ∧
    ((∀ p, p <+: t → p ≠ nt ∧ p ∉ querySelectorAll doc md "dropdown-link") →
      visible (dispatchClick ⟨d, pg.listeners⟩ t).doc md = true) := by
  have h1 := run_closeOutside_inside nt md t d (Or.inr ht)
  refine ⟨h1, by rw [h1]; exact hvis, fun hfree => ?_⟩
  rw [dispatchClick_inside_unbound doc nt md pg hnt hmd hinit t d ht hfree]
  exact hvis

theorem inside_click_keeps_open_witness :
    getElementById samplePage "nav-toggle" = some [0] ∧
    getElementById samplePage "mobile-dropdown" = some [1] ∧
    onDOMContentLoaded ⟨samplePage, []⟩ = .ok ⟨samplePage, sampleListeners⟩ ∧
    contains [1] [1] = true ∧
    visible samplePage [1] = true ∧
    visible (dispatchClick ⟨samplePage, sampleListeners⟩ [1]).doc [1] = true :=
  ⟨by decide, by decide, rfl, by decide, by decide,
    (inside_click_keeps_open samplePage [0] [1] ⟨samplePage, sampleListeners⟩ [1] samplePage
      (by decide) (by decide) rfl (by decide) (by decide)).2.2 (by
        intro p hp
        have hmem : p ∈ [[], [1]] := by
          have := (List.mem_inits p [1]).mpr hp
          simpa using this
        simp only [List.mem_cons, List.mem_singleton, List.not_mem_nil, or_false] at hmem
        rcases hmem with rfl | rfl <;> decide)⟩

/-- C5, the code where it departs from the claim: when the toggle control wraps
the visible panel, a click on a link bound at initialization runs the link
handler (closing) and then, bubbling, the toggle handler (opening again); the
document-wide handler does nothing for this inside origin, and after all
registered handlers have run the panel is visible, not closed. -/
theorem link_click_under_toggle_stays_open :
    getElementById toggleWrapsPanel "nav-toggle" = some [0] ∧
    getElementById toggleWrapsPanel "mobile-dropdown" = some [0, 0] ∧
    onDOMContentLoaded ⟨toggleWrapsPanel, []⟩ = .ok ⟨toggleWrapsPanel,
      [(.element [0], .toggleShow [0, 0]), (.document, .closeOutside [0] [0, 0]),
       (.element [0, 0, 0], .closeOnLink [0, 0])]⟩ ∧
    [0, 0, 0] ∈ querySelectorAll toggleWrapsPanel [0, 0] "dropdown-link" ∧
    visible toggleWrapsPanel [0, 0] = true ∧
    visible (dispatchClick ⟨toggleWrapsPanel,
      [(.element [0], .toggleShow [0, 0]), (.document, .closeOutside [0] [0, 0]),
       (.element [0, 0, 0], .closeOnLink [0, 0])]⟩ [0, 0, 0]).doc [0, 0] = true :=
  ⟨by decide, by decide, rfl, by decide, by decide, by decide⟩

/-- Link selection where the toggle control is not a proper ancestor of the
link: after a click whose origin is the link (or lies within it) has been
dispatched to all registered listeners, the panel is not visible, whatever its
state before and whichever link it was. -/
theorem link_click_dismisses (doc : Node) (nt md : Ref) (pg : Page) (link t : Ref) (d : Node)
    (hnt : getElementById doc "nav-toggle" = some nt)
    (hmd : getElementById doc "mobile-dropdown" = some md)
    (hinit : onDOMContentLoaded ⟨doc, []⟩ = .ok pg)
    (hlink : link ∈ querySelectorAll doc md "dropdown-link")
    (ht : link <+: t)
    (hanc : nt <+: link → nt = link) :
    visible (dispatchClick ⟨d, pg.listeners⟩ t).doc md = false := by
  obtain ⟨s, rfl⟩ := ht
  obtain ⟨P1, P2, hsplit, hP2⟩ := eventPath_split link s
  simp only [dispatchClick, hsplit, List.foldl_append, List.foldl_cons]
  apply foldl_invoke_keeps_closed
  · intro cur hcur h hmem m hm
    subst hm
    rcases (mem_registered doc nt md pg hnt hmd hinit _).mp hmem with hl | hl | ⟨l0, _, hl⟩
    · obtain ⟨hc, _⟩ := Prod.mk.inj hl
      rcases hP2 cur hcur with hd | ⟨p, hp, hpre, hne⟩
      · rw [hd] at hc; cases hc
      · rw [hp] at hc
        injection hc with hc
        subst hc
        exact hne (hanc hpre)
    · cases (Prod.mk.inj hl).2
    · cases (Prod.mk.inj hl).2
  · obtain ⟨L1, L2, hL⟩ := List.append_of_mem hlink
    have hpg := hinit
    rw [onDOMContentLoaded_present ⟨doc, []⟩ nt md hnt hmd] at hpg
    injection hpg with hpg
    subst hpg
    simp only [List.nil_append, hL, List.map_append, List.map_cons]
    apply invoke_closes _ _ _ md
      (listenersOn [(EventTarget.element nt, Handler.toggleShow md),
          (EventTarget.document, Handler.closeOutside nt md)] (EventTarget.element link)
        ++ listenersOn (L1.map fun l => (EventTarget.element l, Handler.closeOnLink md))
          (EventTarget.element link))
      (listenersOn (L2.map fun l => (EventTarget.element l, Handler.closeOnLink md))
        (EventTarget.element link))
    · have : ((EventTarget.element nt, Handler.toggleShow md) ::
            (EventTarget.document, Handler.closeOutside nt md) ::
            ((L1.map fun l => (EventTarget.element l, Handler.closeOnLink md)) ++
              (EventTarget.element link, Handler.closeOnLink md) ::
              (L2.map fun l => (EventTarget.element l, Handler.closeOnLink md))))
          = [(EventTarget.element nt, Handler.toggleShow md),
              (EventTarget.document, Handler.closeOutside nt md)]
            ++ ((L1.map fun l => (EventTarget.element l, Handler.closeOnLink md)) ++
              ([(EventTarget.element link, Handler.closeOnLink md)] ++
              (L2.map fun l => (EventTarget.element l, Handler.closeOnLink md)))) := by
        simp
      rw [this, listenersOn_append, listenersOn_append, listenersOn_append]
      simp [listenersOn]
    · intro h hm m hEq
      subst hEq
      have := (mem_listenersOn _ _ _).mp hm
      simp at this

theorem link_click_dismisses_witness :
    getElementById samplePage "nav-toggle" = some [0] ∧
    getElementById samplePage "mobile-dropdown" = some [1] ∧
    onDOMContentLoaded ⟨samplePage, []⟩ = .ok ⟨samplePage, sampleListeners⟩ ∧
    [1, 1] ∈ querySelectorAll samplePage [1] "dropdown-link" ∧
    [1, 1] <+: [1, 1, 0] ∧
    ([0] <+: [1, 1] → [0] = [1, 1]) ∧
    visible samplePage [1] = true ∧
    visible (dispatchClick ⟨samplePage, sampleListeners⟩ [1, 1, 0]).doc [1] = false :=
  ⟨by decide, by decide, rfl, by decide, by decide, by decide, by decide,
    link_click_dismisses samplePage [0] [1] ⟨samplePage, sampleListeners⟩ [1, 1] [1, 1, 0]
      samplePage (by decide) (by decide) rfl (by decide) (by decide) (by decide)⟩

/-- C9, as stated, fails: a link inserted, after initialization, inside a link
that was bound at initialization is not an element of the initial document and
has no listener of its own, yet a click on it bubbles to the bound link, whose
handler closes the visible panel. -/
theorem late_link_inside_bound_link_closes :
    getElementById samplePage "nav-toggle" = some [0] ∧
    getElementById samplePage "mobile-dropdown" = some [1] ∧
    onDOMContentLoaded ⟨samplePage, []⟩ = .ok ⟨samplePage, sampleListeners⟩ ∧
    [1, 0, 0] ∉ samplePage.refs.map (relocateAll [.insert [1, 0] 0 newLink]) ∧
    [1, 0, 0] ∈ querySelectorAll
      (Page.run ⟨samplePage, sampleListeners⟩ [.insert [1, 0] 0 newLink]).doc [1]
      "dropdown-link" ∧
    visible (Page.run ⟨samplePage, sampleListeners⟩ [.insert [1, 0] 0 newLink]).doc [1]
      = true ∧
    listenersOn (Page.run ⟨samplePage, sampleListeners⟩ [.insert [1, 0] 0 newLink]).listeners
      (.element [1, 0, 0]) = [] ∧
    listenersOn (Page.run ⟨samplePage, sampleListeners⟩ [.insert [1, 0] 0 newLink]).listeners
      (.element [1, 0]) = [.closeOnLink [1]] ∧
    visible (dispatchClick
      (Page.run ⟨samplePage, sampleListeners⟩ [.insert [1, 0] 0 newLink]) [1, 0, 0]).doc [1]
      = false :=
  ⟨by decide, by decide, rfl, by decide, by decide, by decide, by decide, by decide,
    by decide⟩

/-- C9, amended: the elements given a closing handler are exactly the
dropdown-link descendants of the panel at initialization (the elements properly
below the panel that carry the class). After any sequence of insertions and
clicks, a dropdown link under the panel that is not an element of the initial
document has no listener of its own, wherever it was inserted; and when no element
above it is the toggle control or a link bound at initialization, a click on it
leaves the document as it was, so a visible panel stays visible. What an insertion
adds is never an element that existed before it. -/
theorem late_link_not_bound (doc : Node) (nt md : Ref) (pg : Page)
    (hnt : getElementById doc "nav-toggle" = some nt)
    (hmd : getElementById doc "mobile-dropdown" = some md)
    (hinit : onDOMContentLoaded ⟨doc, []⟩ = .ok pg) :
    (∀ e, (EventTarget.element e, Handler.closeOnLink md) ∈ pg.listeners ↔
      e ∈ querySelectorAll doc md "dropdown-link") ∧
    (∀ e, e ∈ querySelectorAll doc md "dropdown-link" ↔
      md <+: e ∧ e ≠ md ∧ hasClass doc e "dropdown-link" = true) ∧
    (∀ (steps : List Step) (l : Ref),
      l ∉ doc.refs.map (relocateAll steps) →
      hasClass (pg.run steps).doc l "dropdown-link" = true →
      relocateAll steps md <+: l →
      listenersOn (pg.run steps).listeners (.element l) = [] ∧
      ((∀ p, p <+: l → p ≠ l →
          p ≠ relocateAll steps nt ∧
          p ∉ (querySelectorAll doc md "dropdown-link").map (relocateAll steps)) →
        (dispatchClick (pg.run steps) l).doc = (pg.run steps).doc ∧
        (visible (pg.run steps).doc (relocateAll steps md) = true →
          visible (dispatchClick (pg.run steps) l).doc (relocateAll steps md) = true))) ∧
    (∀ (before after : List Step) (parent : Ref) (index : Nat) (child : Node) (s r : Ref),
      relocateAll (before ++ Step.insert parent index child :: after) r
        ≠ relocateAll after (parent ++ index :: s)) := by
  refine ⟨?_, fun e => mem_querySelectorAll_iff doc md _ e (getElementById_some doc _ md hmd),
    ?_, ?_⟩
  · intro e
    rw [mem_registered doc nt md pg hnt hmd hinit]
    constructor
    · rintro (h | h | ⟨link, hl, h⟩)
      · cases (Prod.mk.inj h).2
      · cases (Prod.mk.inj h).1
      · obtain ⟨h1, _⟩ := Prod.mk.inj h
        injection h1 with h1
        subst h1
        exact hl
    · intro he
      exact Or.inr (Or.inr ⟨e, he, rfl⟩)
  · intro steps l hnew _ hmdl
    have hnt0 : l ≠ relocateAll steps nt := by
      intro h
      exact hnew (List.mem_map.mpr
        ⟨nt, mem_refs_of_classListAt doc nt (getElementById_some doc _ nt hnt), h.symm⟩)
    have hlink0 : l ∉ (querySelectorAll doc md "dropdown-link").map (relocateAll steps) := by
      intro h
      obtain ⟨link, hlink, hEq⟩ := List.mem_map.mp h
      have hc := (mem_querySelectorAll doc md _ link hlink).2
      have hv : classListAt doc link ≠ none := by
        intro h0
        simp [hasClass, h0] at hc
      exact hnew (List.mem_map.mpr ⟨link, mem_refs_of_classListAt doc link hv, hEq⟩)
    refine ⟨?_, fun hfree => ?_⟩
    · apply List.eq_nil_iff_forall_not_mem.mpr
      intro h hm
      rcases (mem_registered_run doc nt md pg hnt hmd hinit steps _).mp
        ((mem_listenersOn _ _ _).mp hm) with hl0 | hl0 | ⟨link, hlink, hl0⟩
      · obtain ⟨h1, _⟩ := Prod.mk.inj hl0
        injection h1 with h1
        exact hnt0 h1
      · cases (Prod.mk.inj hl0).1
      · obtain ⟨h1, _⟩ := Prod.mk.inj hl0
        injection h1 with h1
        exact hlink0 (List.mem_map.mpr ⟨link, hlink, h1.symm⟩)
    · have hall : ∀ p, p <+: l →
          p ≠ relocateAll steps nt ∧
          p ∉ (querySelectorAll doc md "dropdown-link").map (relocateAll steps) := by
        intro p hp
        by_cases hpl : p = l
        · subst hpl; exact ⟨hnt0, hlink0⟩
        · exact hfree p hp hpl
      have hid : (dispatchClick (pg.run steps) l).doc = (pg.run steps).doc := by
        simp only [dispatchClick]
        apply foldl_invoke_id
        intro cur hcur h hmem
        rcases (mem_registered_run doc nt md pg hnt hmd hinit steps (cur, h)).mp hmem
          with hl0 | hl0 | ⟨link, hlink, hl0⟩
        · obtain ⟨hc, _⟩ := Prod.mk.inj hl0
          rcases (mem_eventPath l cur).mp hcur with hd | ⟨p, hp, hpre⟩
          · rw [hd] at hc; cases hc
          · rw [hp] at hc
            injection hc with hc
            exact absurd hc (hall p hpre).1
        · obtain ⟨_, hh⟩ := Prod.mk.inj hl0
          subst hh
          exact run_closeOutside_inside _ _ l _ (Or.inr ((contains_iff _ _).mpr hmdl))
        · obtain ⟨hc, _⟩ := Prod.mk.inj hl0
          rcases (mem_eventPath l cur).mp hcur with hd | ⟨p, hp, hpre⟩
          · rw [hd] at hc; cases hc
          · rw [hp] at hc
            injection hc with hc
            exact absurd (List.mem_map.mpr ⟨link, hlink, hc.symm⟩) (hall p hpre).2
      exact ⟨hid, fun hv => by rw [hid]; exact hv⟩
  · intro before after parent index child s r h
    rw [relocateAll_append, relocateAll_cons] at h
    exact relocate_ne_inserted parent index _ s (relocateAll_injective after _ _ h)

theorem late_link_not_bound_witness :
    getElementById samplePage "nav-toggle" = some [0] ∧
    getElementById samplePage "mobile-dropdown" = some [1] ∧
    onDOMContentLoaded ⟨samplePage, []⟩ = .ok ⟨samplePage, sampleListeners⟩ ∧
    [1, 0] ∉ samplePage.refs.map (relocateAll [.insert [1] 0 newLink]) ∧
    hasClass (Page.run ⟨samplePage, sampleListeners⟩ [.insert [1] 0 newLink]).doc [1, 0]
      "dropdown-link" = true ∧
    relocateAll [.insert [1] 0 newLink] [1] <+: [1, 0] ∧
    (Page.run ⟨samplePage, sampleListeners⟩ [.insert [1] 0 newLink]).listeners
      = [(.element [0], .toggleShow [1]), (.document, .closeOutside [0] [1]),
         (.element [1, 1], .closeOnLink [1]), (.element [1, 2], .closeOnLink [1])] ∧
    visible (Page.run ⟨samplePage, sampleListeners⟩ [.insert [1] 0 newLink]).doc [1]
      = true ∧
    visible (dispatchClick
      (Page.run ⟨samplePage, sampleListeners⟩ [.insert [1] 0 newLink]) [1, 0]).doc [1]
      = true :=
  ⟨by decide, by decide, rfl, by decide, by decide, by decide, by decide, by decide,
    (((late_link_not_bound samplePage [0] [1] ⟨samplePage, sampleListeners⟩
      (by decide) (by decide) rfl).2.2.1 [.insert [1] 0 newLink] [1, 0]
      (by decide) (by decide) (by decide)).2 (by
        intro p hp hne
        have hmem : p ∈ [[], [1], [1, 0]] := by
          have := (List.mem_inits p [1, 0]).mpr hp
          simpa using this
        simp only [List.mem_cons, List.mem_singleton, List.not_mem_nil, or_false] at hmem
        rcases hmem with rfl | rfl | rfl
        · decide
        · decide
        · exact absurd rfl hne)).2 (by decide)⟩

/-- C8, as stated, fails: when the toggle control is itself a dropdown link inside
the panel, initialization registers two click handlers on it, the toggle handler
and then the closing handler. -/
theorem toggle_as_link_has_two_handlers :
    getElementById toggleInsidePanel "nav-toggle" = some [0, 0] ∧
    getElementById toggleInsidePanel "mobile-dropdown" = some [0] ∧
    onDOMContentLoaded ⟨toggleInsidePanel, []⟩ = .ok ⟨toggleInsidePanel,
      [(.element [0, 0], .toggleShow [0]), (.document, .closeOutside [0, 0] [0]),
       (.element [0, 0], .closeOnLink [0])]⟩ ∧
    listenersOn
      [(.element [0, 0], .toggleShow [0]), (.document, .closeOutside [0, 0] [0]),
       (.element [0, 0], .closeOnLink [0])] (.element [0, 0])
      = [.toggleShow [0], .closeOnLink [0]] ∧
    ¬ (listenersOn
      [(.element [0, 0], .toggleShow [0]), (.document, .closeOutside [0, 0] [0]),
       (.element [0, 0], .closeOnLink [0])] (.element [0, 0])).length ≤ 1 :=
  ⟨by decide, by decide, rfl, by decide, by decide⟩

/-- C8, amended: after initialization with both elements present, the document
carries one click handler and an element carries one for being the toggle control
plus one for being a dropdown-link descendant of the panel: at most one on every
element other than the toggle control, and two on the toggle control exactly when
it is itself such a link. No link is matched more than once. -/
theorem listeners_per_target (doc : Node) (nt md : Ref) (pg : Page)
    (hnt : getElementById doc "nav-toggle" = some nt)
    (hmd : getElementById doc "mobile-dropdown" = some md)
    (hinit : onDOMContentLoaded ⟨doc, []⟩ = .ok pg) :
    (listenersOn pg.listeners .document).length = 1 ∧
    (∀ e, (listenersOn pg.listeners (.element e)).length
      = (if e = nt then 1 else 0)
        + (if e ∈ querySelectorAll doc md "dropdown-link" then 1 else 0)) ∧
    (∀ e, e ≠ nt → (listenersOn pg.listeners (.element e)).length ≤ 1) ∧
    (querySelectorAll doc md "dropdown-link").Nodup := by
  have hnd := querySelectorAll_nodup doc md "dropdown-link"
  have hls : pg.listeners = (EventTarget.element nt, Handler.toggleShow md) ::
      (EventTarget.document, Handler.closeOutside nt md) ::
      (querySelectorAll doc md "dropdown-link").map
        (fun link => (EventTarget.element link, Handler.closeOnLink md)) := by
    have hpg := hinit
    rw [onDOMContentLoaded_present ⟨doc, []⟩ nt md hnt hmd] at hpg
    injection hpg with hpg
    subst hpg
    rfl
  have hsplit : ∀ cur, listenersOn pg.listeners cur
      = listenersOn [(EventTarget.element nt, Handler.toggleShow md),
          (EventTarget.document, Handler.closeOutside nt md)] cur
        ++ listenersOn ((querySelectorAll doc md "dropdown-link").map
          (fun link => (EventTarget.element link, Handler.closeOnLink md))) cur := by
    intro cur
    rw [hls, ← listenersOn_append]
    rfl
  have hcount : ∀ e, (listenersOn pg.listeners (.element e)).length
      = (if e = nt then 1 else 0)
        + (if e ∈ querySelectorAll doc md "dropdown-link" then 1 else 0) := by
    intro e
    simp only [hsplit, List.length_append, length_listenersOn_links md _ e hnd]
    congr 1
    by_cases he : e = nt
    · subst he; simp [listenersOn]
    · have hne : ¬ nt = e := fun h => he h.symm
      simp [listenersOn, he, hne]
  refine ⟨?_, hcount, ?_, hnd⟩
  · simp only [hsplit, List.length_append]
    have : listenersOn ((querySelectorAll doc md "dropdown-link").map
        (fun link => (EventTarget.element link, Handler.closeOnLink md))) .document = [] := by
      apply List.eq_nil_iff_forall_not_mem.mpr
      intro h hm
      have := (mem_listenersOn _ _ _).mp hm
      simp at this
    rw [this]
    simp [listenersOn]
  · intro e he
    rw [hcount e]
    simp only [he, if_false]
    split <;> simp

theorem listeners_per_target_witness :
    getElementById samplePage "nav-toggle" = some [0] ∧
    getElementById samplePage "mobile-dropdown" = some [1] ∧
    onDOMContentLoaded ⟨samplePage, []⟩ = .ok ⟨samplePage, sampleListeners⟩ ∧
    (listenersOn sampleListeners (.element [1, 1])).length ≤ 1 :=
  ⟨by decide, by decide, rfl,
    (listeners_per_target samplePage [0] [1] ⟨samplePage, sampleListeners⟩
      (by decide) (by decide) rfl).2.2.1 [1, 1] (by decide)⟩

end NavToggle
